import Mathlib

/-!
Verification of the slot-allocation and moderation engine of `VDSAukcion.py`.

The Python program keeps, per item ("photo"), a dict `users : user_id -> name`
(the registered set, insertion-ordered) and a list `confirmed_users` of
`{user_id, name}` records (the confirmed sequence).  Display names are Python
strings; we embed them as `List Char`.  The registered set is embedded as an
insertion-ordered association list, matching dict semantics (update in place,
insert at the end, delete by key).

Python truthiness of a name (`if not user_name`) is `none` (key absent) or
the empty string; several handlers gate on it, which the embedding mirrors.
-/

namespace VDSAukcion

/-- `MAX_CONFIRMED_USERS = 4` from the source. -/
def MAX_CONFIRMED_USERS : Nat := 4

/-- A display name: a Python string, embedded as its list of characters. -/
abbrev Name := List Char

/-- The registered set: Python dict `{user_id: name}`, insertion-ordered. -/
abbrev Users := List (Nat × Name)

/-- `get_user_icon(index)` from the source: positions 0-3 get special icons,
everything else the generic participant icon. -/
def get_user_icon (index : Nat) : String :=
  if index = 0 then "☀️"
  else if index = 1 then "🌤️"
  else if index = 2 then "🌙"
  else if index = 3 then "⭐"
  else "👤"

/-- The "daytime" symbol family of the spec: the icons of positions 0 and 1
(the source banner: the first 2 participants get the sun icon). -/
def daytimeIcons : List String := ["☀️", "🌤️"]

/-- The "nighttime" symbol family of the spec: the icons of positions 2 and 3
(the source banner: the next 2 participants get the moon icon). -/
def nighttimeIcons : List String := ["🌙", "⭐"]

/-- Dict lookup `users.get(uid)`. -/
def lookupUser : Users → Nat → Option Name
  | [], _ => none
  | p :: rest, uid => if p.1 = uid then some p.2 else lookupUser rest uid

/-- Dict membership `uid in users`. -/
def userRegistered (users : Users) (uid : Nat) : Bool :=
  users.any (fun p => p.1 = uid)

/-- Dict assignment `users[uid] = name`: update the existing entry in place,
or append a new entry at the end. -/
def insertUser : Users → Nat → Name → Users
  | [], uid, name => [(uid, name)]
  | p :: rest, uid, name =>
    if p.1 = uid then (uid, name) :: rest else p :: insertUser rest uid name

/-- Dict deletion `del users[uid]` (a no-op when the key is absent, matching
the guarded `if uid in users: del users[uid]` in the source). -/
def eraseUser (users : Users) (uid : Nat) : Users :=
  users.filter (fun p => ¬ p.1 = uid)

/-- Python truthiness of `users.get(uid)`: the lookup succeeds with a
non-empty name.  Several handlers test `if not user_name`. -/
def truthyName (users : Users) (uid : Nat) : Bool :=
  match lookupUser users uid with
  | none => false
  | some n => ¬ n.isEmpty

/-- Membership of an actor in the confirmed sequence:
`any(u["user_id"] == uid for u in confirmed_users)`. -/
def isConfirmedIn (confirmed : List (Nat × Name)) (uid : Nat) : Bool :=
  confirmed.any (fun p => p.1 = uid)

/-- One item (`photos_data[photo_id]`): media file id, media unique id,
registered set and confirmed sequence. -/
structure Item where
  photo : Option String
  photoFileUniqueId : Option String
  users : Users
  confirmedUsers : List (Nat × Name)
deriving DecidableEq

/-! ### Engine operations (button_handler branches of the source) -/

/-- Result of the explicit `confirm_<photo_id>` button. -/
inductive ConfirmResult where
  | notRegistered
  | capacityFull
  | alreadyConfirmed
  | ok (position : Nat)
deriving DecidableEq

/-- The `confirm` branch of `button_handler` (source lines 1397-1445):
check registration, then capacity, then prior confirmation; on success append
`(user_id, users[user_id])` and report the zero-based position of the new
last entry. -/
def confirmUser (it : Item) (uid : Nat) : ConfirmResult × Item :=
  if ¬ userRegistered it.users uid then (.notRegistered, it)
  else if MAX_CONFIRMED_USERS ≤ it.confirmedUsers.length then (.capacityFull, it)
  else if isConfirmedIn it.confirmedUsers uid then (.alreadyConfirmed, it)
  else
    let nm := (lookupUser it.users uid).getD []
    let it' : Item := { it with confirmedUsers := it.confirmedUsers ++ [(uid, nm)] }
    (.ok (it'.confirmedUsers.length - 1), it')

/-- Result of the self-service `confirm_delete_<photo_id>` button. -/
inductive UnregisterResult where
  | notRegistered
  | ok
deriving DecidableEq

/-- The `confirm_delete_` branch of `button_handler` (source lines 1300-1325):
gated on a truthy registered name; removes the actor from the confirmed
sequence (list filter) and from the registered set (dict delete). -/
def unregisterOp (it : Item) (uid : Nat) : UnregisterResult × Item :=
  if ¬ truthyName it.users uid then (.notRegistered, it)
  else (.ok, { it with
    confirmedUsers := it.confirmedUsers.filter (fun p => ¬ p.1 = uid),
    users := eraseUser it.users uid })

/-- Result of the moderator `adminunconfirmok_` button. -/
inductive UnconfirmResult where
  | notRegistered
  | notConfirmed
  | ok (remaining : Nat)
deriving DecidableEq

/-- The `adminunconfirmok_` branch of `button_handler` (source lines
1032-1080).  The privilege check (`is_admin`) happens in the handler before
this state transition and is privilege-only, so it is not part of the item
operation.  The handler first requires a truthy registered name for the
target, then filters the confirmed sequence and reports `notConfirmed` when
the filter removed nothing. -/
def adminUnconfirm (it : Item) (target : Nat) : UnconfirmResult × Item :=
  if ¬ truthyName it.users target then (.notRegistered, it)
  else
    let filtered := it.confirmedUsers.filter (fun p => ¬ p.1 = target)
    let it' : Item := { it with confirmedUsers := filtered }
    if filtered.length = it.confirmedUsers.length then (.notConfirmed, it')
    else (.ok filtered.length, it')

/-- Result of the moderator `admindeleteok_` button. -/
inductive DeleteResult where
  | notRegistered
  | ok
deriving DecidableEq

/-- The `admindeleteok_` branch of `button_handler` (source lines 975-1030).
Privilege is checked by the handler beforehand (as for `adminUnconfirm`).
Gated on a truthy registered name for the target; removes the target from
the confirmed sequence and from the registered set. -/
def adminDelete (it : Item) (target : Nat) : DeleteResult × Item :=
  if ¬ truthyName it.users target then (.notRegistered, it)
  else (.ok, { it with
    confirmedUsers := it.confirmedUsers.filter (fun p => ¬ p.1 = target),
    users := eraseUser it.users target })

/-- Per-item effect of `/clear_names` (source lines 451-491): items with any
registration data have both structures emptied; empty items are untouched. -/
def clearItem (it : Item) : Item :=
  if it.users.isEmpty ∧ it.confirmedUsers.isEmpty then it
  else { it with users := [], confirmedUsers := [] }

/-! ### Name validation and sanitization (handle_text, source lines 1486-1604) -/

/-- The apostrophe character (kept by the sanitizing regex, expanded by the
HTML escaping step). -/
def apos : Char := Char.ofNat 39

/-- The double-quote character. -/
def dquote : Char := Char.ofNat 34

/-- Python `str.isspace` for the ASCII whitespace characters
(space, tab, newline, vertical tab, form feed, carriage return). -/
def pyIsSpace (c : Char) : Bool :=
  c = ' ' || c = '\t' || c = '\n' || c = Char.ofNat 11 || c = Char.ofNat 12 || c = '\r'

/-- Python `str.strip()`: drop whitespace from both ends. -/
def pyStrip (l : List Char) : List Char :=
  ((l.dropWhile pyIsSpace).reverse.dropWhile pyIsSpace).reverse

/-- After a literal `<`, skip to the closing `>`: return the characters
after that `>`, or `none` when no `>` follows. -/
def skipToClose : List Char → Option (List Char)
  | [] => none
  | c :: rest => if c = '>' then some rest else skipToClose rest

/-- `tagEnd cs` matches the regex tag body `[^>]+>` at the front of `cs`
(the characters right after a `<`): at least one non-`>` character followed
by a `>`. -/
def tagEnd : List Char → Option (List Char)
  | [] => none
  | c :: rest => if c = '>' then none else skipToClose rest

/-- Fuel-driven core of `re.sub(r'<[^>]+>', '', s)`: remove every
(non-overlapping, leftmost) HTML/XML tag.  The fuel is an upper bound on the
number of characters still to be consumed; `stripTags` supplies the length of
the input, which suffices because every step consumes at least one
character. -/
def stripTagsF : Nat → List Char → List Char
  | 0, l => l
  | _ + 1, [] => []
  | f + 1, c :: rest =>
    if c = '<' then
      match tagEnd rest with
      | some after => stripTagsF f after
      | none => c :: stripTagsF f rest
    else c :: stripTagsF f rest

/-- `re.sub(r'<[^>]+>', '', s)` from step 3 of the pipeline. -/
def stripTags (l : List Char) : List Char := stripTagsF l.length l

/-- The character class kept by step 4,
`re.sub(r"[^\w\s\-\.\'Ѐ-ӿ]", '', s)`: word characters, whitespace,
hyphen, dot, apostrophe, and the Cyrillic block U+0400-U+04FF.  Word
characters are modelled for ASCII (letters, digits, underscore); the
source's `\w` additionally matches non-ASCII letters outside the Cyrillic
block, which no claim depends on. -/
def isAllowedChar (c : Char) : Bool :=
  c.isAlphanum || c = '_' || pyIsSpace c || c = '-' || c = '.' || c = apos ||
    (0x400 ≤ c.toNat && c.toNat ≤ 0x4FF)

/-- Fuel-driven core of `' '.join(s.split())` on an input with no leading
whitespace: each whitespace run is collapsed to a single space, and a
trailing whitespace run is dropped. -/
def collapseF : Nat → List Char → List Char
  | 0, l => l
  | _ + 1, [] => []
  | f + 1, c :: rest =>
    if pyIsSpace c then
      match rest.dropWhile pyIsSpace with
      | [] => []
      | rest' => ' ' :: collapseF f rest'
    else c :: collapseF f rest

/-- Step 5 of the pipeline, `' '.join(s.split())`: split on whitespace runs
and re-join the words with single spaces. -/
def pyCollapse (l : List Char) : List Char :=
  let l' := l.dropWhile pyIsSpace
  collapseF l'.length l'

/-- The `escape_map` of the source: `& < > " '` expand to HTML entities. -/
def escapeChar (c : Char) : List Char :=
  if c = '&' then ['&', 'a', 'm', 'p', ';']
  else if c = '<' then ['&', 'l', 't', ';']
  else if c = '>' then ['&', 'g', 't', ';']
  else if c = dquote then ['&', 'q', 'u', 'o', 't', ';']
  else if c = apos then ['&', '#', '3', '9', ';']
  else [c]

/-- `escape_html` from the source: escape each character and concatenate. -/
def escapeHtml : List Char → List Char
  | [] => []
  | c :: rest => escapeChar c ++ escapeHtml rest

/-- Outcome of the registration commit step (`handle_text`). -/
inductive RegisterOutcome where
  | emptyName
  | tooLong
  | tooShort
  | invalidChars
  | autoConfirmed (position : Nat)
  | alreadyConfirmedNote
  | waitingList
deriving DecidableEq

/-- The commit step of registration, `handle_text` (source lines 1486-1604),
for an existing item: strip, validate lengths, strip tags, filter the
character class, collapse whitespace, check non-emptiness, truncate to 20
characters, HTML-escape; then store the name in the registered set and
auto-confirm when the actor is not yet confirmed and capacity remains. -/
def registerCommit (it : Item) (uid : Nat) (raw : List Char) : RegisterOutcome × Item :=
  let user_name := pyStrip raw
  if user_name.isEmpty then (.emptyName, it)
  else if 20 < user_name.length then (.tooLong, it)
  else if user_name.length < 2 then (.tooShort, it)
  else
    let clean1 := stripTags user_name
    let clean2 := clean1.filter isAllowedChar
    let clean3 := pyCollapse clean2
    if clean3.isEmpty then (.invalidChars, it)
    else
      let clean4 := if 20 < clean3.length then clean3.take 20 else clean3
      let safe := escapeHtml clean4
      let users' := insertUser it.users uid safe
      if ¬ isConfirmedIn it.confirmedUsers uid ∧
          it.confirmedUsers.length < MAX_CONFIRMED_USERS then
        (.autoConfirmed it.confirmedUsers.length,
          { it with users := users',
                    confirmedUsers := it.confirmedUsers ++ [(uid, safe)] })
      else if isConfirmedIn it.confirmedUsers uid then
        (.alreadyConfirmedNote, { it with users := users' })
      else (.waitingList, { it with users := users' })

/-- Result of the full Register operation. -/
inductive RegisterResult where
  | alreadyRegistered
  | committed (outcome : RegisterOutcome)
deriving DecidableEq

/-- The full Register operation: the `register_` branch of `button_handler`
(source lines 1383-1394) rejects an actor already in the registered set and
otherwise prompts for a name whose submission runs `handle_text`; in the
sequential engine model the two steps are one atomic operation. -/
def registerOp (it : Item) (uid : Nat) (raw : List Char) : RegisterResult × Item :=
  if userRegistered it.users uid then (.alreadyRegistered, it)
  else
    let r := registerCommit it uid raw
    (.committed r.1, r.2)

/-! ### Moderator set (remove_admin, source lines 287-334) -/

/-- Result of `/remove_admin`. -/
inductive RemoveAdminResult where
  | forbidden
  | notModerator
  | lastModerator
  | selfRemoval
  | ok (newAdmins : Finset Nat)
deriving DecidableEq

/-- `remove_admin` (source lines 287-334), with the argument already parsed:
requester must be an admin; then the checks run in source order: target not
an admin, set about to be emptied (`len(admins) <= 1`), self-removal; else
the target is removed. -/
def remove_admin (admins : Finset Nat) (requester target : Nat) : RemoveAdminResult :=
  if requester ∉ admins then .forbidden
  else if target ∉ admins then .notModerator
  else if admins.card ≤ 1 then .lastModerator
  else if target = requester then .selfRemoval
  else .ok (admins.erase target)

/-! ### Item registry (handle_photo, reset, save/load) -/

/-- The in-memory `photos_data` dict: insertion-ordered map from photo id to
item. -/
abbrev Registry := List (String × Item)

/-- Dict assignment `photos_data[pid] = item`. -/
def insertReg : Registry → String → Item → Registry
  | [], pid, it => [(pid, it)]
  | p :: rest, pid, it =>
    if p.1 = pid then (pid, it) :: rest else p :: insertReg rest pid it

/-- The item-creation part of `handle_photo` (source lines 411-430): the new
id is `photo_<len(photos_data) + 1>` and the fresh item starts with empty
registration state. -/
def createItem (reg : Registry) (fileId uniqueId : String) : String × Registry :=
  let pid := "photo_" ++ toString (reg.length + 1)
  (pid, insertReg reg pid
    { photo := some fileId, photoFileUniqueId := some uniqueId,
      users := [], confirmedUsers := [] })

/-- One registry-level event of a process lifetime: an item creation
(`handle_photo`) or the full reset (`confirm_reset_all`, which clears
`photos_data`). -/
inductive PhotoEvent where
  | create (fileId uniqueId : String)
  | resetAll
deriving DecidableEq

/-- Apply one event to the registry. -/
def stepEvent (reg : Registry) : PhotoEvent → Registry
  | .create f u => (createItem reg f u).2
  | .resetAll => []

/-- Run a sequence of events from the empty registry of a fresh process. -/
def runEvents (es : List PhotoEvent) : Registry :=
  es.foldl stepEvent []

/-- The number of items created so far in a process lifetime. -/
def createdCount (es : List PhotoEvent) : Nat :=
  es.countP (fun e => match e with | .create _ _ => true | .resetAll => false)

/-- One entry of the durable `photos_data.json` file.  `save_photos_data`
always writes the `photo` and `photo_file_unique_id` keys (even when their
values are null), and never writes `users` or `confirmed_users`;
`hasPhotoKey` records the presence of the `photo` key, which the load-time
integrity filter `"photo" in data` tests. -/
structure SavedItem where
  hasPhotoKey : Bool
  photo : Option String
  photoFileUniqueId : Option String
deriving DecidableEq

/-- `save_photos_data` (source lines 51-68): store, per item, only the media
file id and the media unique id. -/
def save_photos_data (reg : Registry) : List (String × SavedItem) :=
  reg.map (fun p => (p.1, ⟨true, p.2.photo, p.2.photoFileUniqueId⟩))

/-- `load_photos_data` (source lines 70-101) applied to file contents: clear
any `users`/`confirmed_users` fields (saved entries have none, so every
loaded item starts with empty registration state), then keep only the
entries that carry a `photo` key. -/
def load_photos_data (file : List (String × SavedItem)) : Registry :=
  (file.filter (fun p => p.2.hasPhotoKey)).map
    (fun p => (p.1, { photo := p.2.photo, photoFileUniqueId := p.2.photoFileUniqueId,
                      users := [], confirmedUsers := [] }))

/-! ### The item invariant -/

/-- The item invariant of the spec: the confirmed sequence has no duplicate
actor identity, its length is at most `MAX_CONFIRMED_USERS`, and every
confirmed record's actor is registered with exactly the confirmed name. -/
def Inv (it : Item) : Prop :=
  (it.confirmedUsers.map Prod.fst).Nodup ∧
  it.confirmedUsers.length ≤ MAX_CONFIRMED_USERS ∧
  ∀ p ∈ it.confirmedUsers, lookupUser it.users p.1 = some p.2

instance (it : Item) : Decidable (Inv it) := by
  unfold Inv; infer_instance

/-! ### Decimal representation helpers (for the photo_<n> identifiers) -/

/-- Value of a decimal digit character. -/
def digitVal (c : Char) : Nat := c.toNat - '0'.toNat

/-- Value of a decimal digit string (most significant digit first). -/
def decVal (l : List Char) : Nat :=
  l.foldl (fun a c => 10 * a + digitVal c) 0

/-- The numeric part of a `photo_<n>` identifier. -/
def idNum (s : String) : Nat := decVal (s.data.drop 6)

/-- The shape of the registry after any event run: the keys are exactly
`photo_1 .. photo_k` in order, where `k` is the current registry size. -/
def RegShape (reg : Registry) : Prop :=
  reg.map Prod.fst = (List.range reg.length).map (fun i => "photo_" ++ toString (i + 1))

/-! ### Concrete sample states used by witnesses and counterexamples -/

/-- An item with five registered actors and an empty confirmed sequence. -/
def itemFive : Item :=
  ⟨some "file", some "uniq",
   [(1, ['a']), (2, ['b']), (3, ['c']), (4, ['d']), (5, ['e'])], []⟩

/-- A full item whose confirmed sequence contains actor 1 (who is also
registered): the sequence already has `MAX_CONFIRMED_USERS` entries. -/
def itemFullWith1 : Item :=
  ⟨some "file", some "uniq",
   [(1, ['a']), (2, ['b']), (3, ['c']), (4, ['d'])],
   [(2, ['b']), (3, ['c']), (4, ['d']), (1, ['a'])]⟩

/-- An item where actor 1 appears only in the confirmed sequence, not in the
registered set. -/
def itemOnlyConfirmed1 : Item :=
  ⟨some "file", some "uniq", [], [(1, ['X'])]⟩

/-- A second copy of the only-confirmed state (used by a different claim). -/
def itemOnlyConfirmed1' : Item :=
  ⟨some "file", some "uniq", [], [(1, ['Y'])]⟩

/-- A small invariant-satisfying item: two registered actors, one
confirmed. -/
def itemSmall : Item :=
  ⟨some "file", some "uniq", [(1, ['a']), (2, ['b'])], [(1, ['a'])]⟩

/-- The empty item. -/
def itemEmpty : Item := ⟨some "file", some "uniq", [], []⟩

/-! ### Basic lemmas about the association-list operations -/

theorem lookupUser_insertUser (l : Users) (uid : Nat) (nm : Name) (v : Nat) :
    lookupUser (insertUser l uid nm) v =
      if v = uid then some nm else lookupUser l v := by
  induction l with
  | nil =>
    by_cases h : v = uid <;> simp [insertUser, lookupUser, h]
    intro h'; exact absurd h'.symm h
  | cons p rest ih =>
    by_cases hp : p.1 = uid
    · by_cases hv : v = uid
      · simp [insertUser, lookupUser, hp, hv]
      · have huv : ¬ uid = v := fun h => hv h.symm
        simp [insertUser, lookupUser, hp, hv, huv]
    · by_cases hpv : p.1 = v
      · have hvuid : ¬ v = uid := fun h => hp (hpv.trans h)
        simp [insertUser, lookupUser, hp, hpv, hvuid]
      · simp [insertUser, lookupUser, hp, hpv, ih]

theorem lookupUser_eraseUser (l : Users) (uid v : Nat) :
    lookupUser (eraseUser l uid) v =
      if v = uid then none else lookupUser l v := by
  induction l with
  | nil => simp [eraseUser, lookupUser]
  | cons p rest ih =>
    by_cases hp : p.1 = uid
    · have : ¬ (v = uid) → ¬ (p.1 = v) := fun hv hpv => hv (hpv.symm.trans hp)
      by_cases hv : v = uid
      · simp_all [eraseUser, lookupUser, hp, List.filter_cons]
      · simp_all [eraseUser, lookupUser, hp, List.filter_cons]
    · by_cases hpv : p.1 = v
      · have hvuid : ¬ v = uid := fun h => hp (hpv.trans h)
        simp [eraseUser, List.filter_cons, hp, lookupUser, hpv, hvuid]
      · simp_all [eraseUser, List.filter_cons, lookupUser]

theorem userRegistered_iff_lookup (l : Users) (uid : Nat) :
    userRegistered l uid = true ↔ ∃ nm, lookupUser l uid = some nm := by
  induction l with
  | nil => simp [userRegistered, lookupUser]
  | cons p rest ih =>
    by_cases hp : p.1 = uid <;>
      simp [userRegistered, lookupUser, hp] <;>
      simpa [userRegistered] using ih

theorem lookupUser_eq_none_of_not_registered (l : Users) (uid : Nat)
    (h : userRegistered l uid = false) : lookupUser l uid = none := by
  cases hl : lookupUser l uid with
  | none => rfl
  | some nm =>
    have := (userRegistered_iff_lookup l uid).mpr ⟨nm, hl⟩
    rw [this] at h; cases h

theorem insertUser_not_registered (l : Users) (uid : Nat) (nm : Name)
    (h : userRegistered l uid = false) :
    insertUser l uid nm = l ++ [(uid, nm)] := by
  induction l with
  | nil => simp [insertUser]
  | cons p rest ih =>
    simp only [userRegistered, List.any_cons, Bool.or_eq_false_iff] at h
    have hp : ¬ p.1 = uid := by
      intro hh; simp [hh] at h
    have hrest : userRegistered rest uid = false := by
      simpa [userRegistered] using h.2
    simp [insertUser, hp, ih hrest]

theorem filter_eq_self_of_not_mem (l : List (Nat × Name)) (uid : Nat)
    (h : l.any (fun p => p.1 = uid) = false) :
    l.filter (fun p => ¬ p.1 = uid) = l := by
  rw [List.filter_eq_self]
  intro a ha
  rw [List.any_eq_false] at h
  simpa using h a ha

theorem truthyName_iff (l : Users) (uid : Nat) :
    truthyName l uid = true ↔ ∃ nm, lookupUser l uid = some nm ∧ nm ≠ [] := by
  unfold truthyName
  cases hl : lookupUser l uid with
  | none => simp
  | some n =>
    constructor
    · intro h
      refine ⟨n, rfl, ?_⟩
      simpa [List.isEmpty_iff] using h
    · rintro ⟨nm, hnm, hne⟩
      cases hnm
      simpa [List.isEmpty_iff] using hne

theorem escapeChar_ne_nil (c : Char) : escapeChar c ≠ [] := by
  unfold escapeChar
  repeat' split
  all_goals simp

theorem escapeChar_length_le (c : Char) : (escapeChar c).length ≤ 6 := by
  unfold escapeChar
  repeat' split
  all_goals simp

theorem escapeChar_allowed_length (c : Char) (h : isAllowedChar c = true) :
    (escapeChar c).length ≤ 5 := by
  unfold escapeChar
  split
  · next hc => subst hc; exact absurd h (by decide)
  · split
    · next hc => subst hc; exact absurd h (by decide)
    · split
      · next hc => subst hc; exact absurd h (by decide)
      · split
        · next hc => subst hc; exact absurd h (by decide)
        · split
          · simp
          · simp

theorem escapeHtml_ne_nil (l : List Char) (h : l ≠ []) : escapeHtml l ≠ [] := by
  cases l with
  | nil => exact absurd rfl h
  | cons c rest =>
    simp only [escapeHtml]
    intro hcontra
    rcases List.append_eq_nil.mp hcontra with ⟨h1, _⟩
    exact escapeChar_ne_nil c h1

theorem escapeHtml_length_allowed (l : List Char)
    (h : ∀ c ∈ l, isAllowedChar c = true) :
    (escapeHtml l).length ≤ 5 * l.length := by
  induction l with
  | nil => simp [escapeHtml]
  | cons c rest ih =>
    simp only [escapeHtml, List.length_append, List.length_cons]
    have h1 := escapeChar_allowed_length c (h c (by simp))
    have h2 := ih (fun d hd => h d (by simp [hd]))
    omega

theorem mem_collapseF (f : Nat) (l : List Char) (c : Char)
    (h : c ∈ collapseF f l) : c ∈ l ∨ c = ' ' := by
  induction f generalizing l with
  | zero => exact Or.inl h
  | succ f ih =>
    cases l with
    | nil => simp [collapseF] at h
    | cons d rest =>
      by_cases hd : pyIsSpace d
      · simp only [collapseF, hd, if_true] at h
        rcases hr : rest.dropWhile pyIsSpace with _ | ⟨e, rest'⟩
        · rw [hr] at h; simp at h
        · rw [hr] at h
          rcases List.mem_cons.mp h with hsp | htail
          · exact Or.inr hsp
          · rcases ih _ htail with hmem | hsp
            · have : c ∈ rest := (List.dropWhile_sublist pyIsSpace).subset (hr ▸ hmem)
              exact Or.inl (List.mem_cons_of_mem d this)
            · exact Or.inr hsp
      · simp only [collapseF, hd, if_false] at h
        rcases List.mem_cons.mp h with hc | htail
        · exact Or.inl (hc ▸ List.mem_cons_self d rest)
        · rcases ih _ htail with hmem | hsp
          · exact Or.inl (List.mem_cons_of_mem d hmem)
          · exact Or.inr hsp

theorem mem_pyCollapse (l : List Char) (c : Char)
    (h : c ∈ pyCollapse l) : c ∈ l ∨ c = ' ' := by
  unfold pyCollapse at h
  rcases mem_collapseF _ _ _ h with hmem | hsp
  · exact Or.inl ((List.dropWhile_sublist pyIsSpace).subset hmem)
  · exact Or.inr hsp

/-! ### Decimal round trip: photo identifiers determine their number -/

theorem toDigitsCore_append (f : Nat) : ∀ (n : Nat) (ds : List Char),
    Nat.toDigitsCore 10 f n ds = Nat.toDigitsCore 10 f n [] ++ ds := by
  induction f with
  | zero => intro n ds; simp [Nat.toDigitsCore]
  | succ f ih =>
    intro n ds
    by_cases h0 : n / 10 = 0
    · simp [Nat.toDigitsCore, h0]
    · simp only [Nat.toDigitsCore, h0, if_false]
      rw [ih (n / 10) [Nat.digitChar (n % 10)], ih (n / 10) (Nat.digitChar (n % 10) :: ds)]
      simp

theorem digitVal_digitChar : ∀ m < 10, digitVal (Nat.digitChar m) = m := by decide

theorem decVal_toDigitsCore (f : Nat) : ∀ n, n < f →
    decVal (Nat.toDigitsCore 10 f n []) = n := by
  induction f with
  | zero => intro n h; omega
  | succ f ih =>
    intro n h
    by_cases h0 : n / 10 = 0
    · have hn10 : n < 10 := (Nat.div_eq_zero_iff (by omega)).mp h0
      have hmod : n % 10 = n := Nat.mod_eq_of_lt hn10
      simp [Nat.toDigitsCore, h0, decVal, hmod, digitVal_digitChar n hn10]
    · have hn : 0 < n := by
        rcases Nat.eq_zero_or_pos n with h1 | h1
        · subst h1; simp at h0
        · exact h1
      have hdiv : n / 10 < n := Nat.div_lt_self hn (by omega)
      have hf : n / 10 < f := by omega
      simp only [Nat.toDigitsCore, h0, if_false]
      rw [toDigitsCore_append]
      unfold decVal
      rw [List.foldl_append]
      have := ih (n / 10) hf
      unfold decVal at this
      rw [this]
      simp [digitVal_digitChar _ (Nat.mod_lt n (by omega))]
      omega

theorem decVal_toDigits (n : Nat) : decVal (Nat.toDigits 10 n) = n :=
  decVal_toDigitsCore (n + 1) n (Nat.lt_succ_self n)

theorem idNum_photoId (j : Nat) : idNum ("photo_" ++ toString j) = j := by
  unfold idNum
  rw [String.data_append]
  rw [show (6 : Nat) = "photo_".data.length from rfl, List.drop_left]
  exact decVal_toDigits j

theorem photoId_injective (i j : Nat)
    (h : "photo_" ++ toString i = "photo_" ++ toString j) : i = j := by
  have := congrArg idNum h
  rwa [idNum_photoId, idNum_photoId] at this

/-! ### Registry lemmas -/

theorem insertReg_not_mem (reg : Registry) (pid : String) (it : Item)
    (h : pid ∉ reg.map Prod.fst) : insertReg reg pid it = reg ++ [(pid, it)] := by
  induction reg with
  | nil => simp [insertReg]
  | cons p rest ih =>
    simp only [List.map_cons, List.mem_cons, not_or] at h
    have hp : ¬ p.1 = pid := fun hh => h.1 hh.symm
    simp [insertReg, hp, ih h.2]

theorem regShape_empty : RegShape [] := by simp [RegShape]

theorem regShape_create (reg : Registry) (f u : String) (h : RegShape reg) :
    RegShape (createItem reg f u).2 ∧
      (createItem reg f u).2.length = reg.length + 1 := by
  unfold RegShape at h
  have hfresh : ("photo_" ++ toString (reg.length + 1)) ∉ reg.map Prod.fst := by
    rw [h]
    intro hmem
    rcases List.mem_map.mp hmem with ⟨i, hi, heq⟩
    have := photoId_injective _ _ heq.symm
    have hilt := List.mem_range.mp hi
    omega
  unfold createItem
  simp only
  rw [insertReg_not_mem _ _ _ hfresh]
  constructor
  · unfold RegShape
    simp only [List.map_append, List.length_append, List.map_cons, List.map_nil,
      List.length_cons, List.length_nil]
    rw [h]
    rw [show reg.length + (0 + 1) = reg.length + 1 from by omega, List.range_succ]
    simp
  · simp

theorem runEvents_shape_count (es : List PhotoEvent) : ∀ reg, RegShape reg →
    RegShape (es.foldl stepEvent reg) ∧
      ((∀ e ∈ es, e ≠ PhotoEvent.resetAll) →
        (es.foldl stepEvent reg).length = reg.length + createdCount es) := by
  induction es with
  | nil => intro reg h; simp [createdCount]; exact h
  | cons e rest ih =>
    intro reg h
    cases e with
    | create f u =>
      have step := regShape_create reg f u h
      have tail := ih _ step.1
      refine ⟨tail.1, fun hall => ?_⟩
      have hrest : ∀ e ∈ rest, e ≠ PhotoEvent.resetAll := fun e he =>
        hall e (List.mem_cons_of_mem _ he)
      have := tail.2 hrest
      simp only [List.foldl_cons, stepEvent] at this ⊢
      rw [this, step.2]
      simp [createdCount, List.countP_cons]
      omega
    | resetAll =>
      have tail := ih [] regShape_empty
      refine ⟨tail.1, fun hall => ?_⟩
      exact absurd rfl (hall _ (List.mem_cons_self _ _))

/-! ### C7: rank assignment -/

/-- C7: `get_user_icon` (RankOf) is a deterministic total function on
positions: positions 0 and 1 map to the daytime symbol family, positions 2
and 3 to the nighttime family, every position ≥ 4 to the generic participant
symbol; and confirming five actors in order on an item with capacity 4
yields the four special ranks in order while the fifth explicit Confirm
fails with CapacityFull. -/
theorem get_user_icon_families_and_capacity :
    (get_user_icon 0 ∈ daytimeIcons ∧ get_user_icon 1 ∈ daytimeIcons ∧
     get_user_icon 2 ∈ nighttimeIcons ∧ get_user_icon 3 ∈ nighttimeIcons ∧
     [get_user_icon 0, get_user_icon 1] = daytimeIcons ∧
     [get_user_icon 2, get_user_icon 3] = nighttimeIcons) ∧
    (∀ n : Nat, 4 ≤ n → get_user_icon n = "👤") ∧
    (let s1 := confirmUser itemFive 1
     let s2 := confirmUser s1.2 2
     let s3 := confirmUser s2.2 3
     let s4 := confirmUser s3.2 4
     let s5 := confirmUser s4.2 5
     s1.1 = ConfirmResult.ok 0 ∧ s2.1 = ConfirmResult.ok 1 ∧
     s3.1 = ConfirmResult.ok 2 ∧ s4.1 = ConfirmResult.ok 3 ∧
     s5.1 = ConfirmResult.capacityFull) := by
  refine ⟨by decide, ?_, by decide⟩
  intro n hn
  unfold get_user_icon
  rw [if_neg (by omega), if_neg (by omega), if_neg (by omega), if_neg (by omega)]

/-- Closed witness for the hypothesis of the C7 theorem: position 7 is ≥ 4
and receives the generic participant icon. -/
theorem get_user_icon_families_witness : 4 ≤ 7 ∧ get_user_icon 7 = "👤" :=
  ⟨by omega, get_user_icon_families_and_capacity.2.1 7 (by omega)⟩

/-! ### C6: remove_admin -/

/-- C6 counterexample: with a singleton moderator set `{1}` the single
moderator naming the absent target 2 receives `notModerator`, not
`lastModerator` — the claim demands `LastModerator` regardless of the named
target whenever the set has exactly one member. -/
theorem remove_admin_singleton_absent_target_cex :
    ({1} : Finset Nat).card = 1 ∧ (1 : Nat) ∈ ({1} : Finset Nat) ∧
    remove_admin {1} 1 2 = RemoveAdminResult.notModerator ∧
    RemoveAdminResult.notModerator ≠ RemoveAdminResult.lastModerator := by
  refine ⟨rfl, by decide, by decide, by decide⟩

/-- C6 amended: `remove_admin` fails with Forbidden for a non-moderator
requester; otherwise with NotModerator when the target is absent from the
set (this check precedes the last-moderator floor, so a singleton set with
an absent target yields NotModerator); otherwise with LastModerator when
removing the target would leave the set empty (`card ≤ 1`); otherwise with
SelfRemoval when the target equals the requester; otherwise it removes the
target.  In particular, with exactly one moderator every present-target
request fails with LastModerator. -/
theorem remove_admin_spec (admins : Finset Nat) (r t : Nat) :
    (r ∉ admins → remove_admin admins r t = RemoveAdminResult.forbidden) ∧
    (r ∈ admins → t ∉ admins → remove_admin admins r t = RemoveAdminResult.notModerator) ∧
    (r ∈ admins → t ∈ admins → admins.card ≤ 1 →
      remove_admin admins r t = RemoveAdminResult.lastModerator) ∧
    (r ∈ admins → t ∈ admins → 1 < admins.card → t = r →
      remove_admin admins r t = RemoveAdminResult.selfRemoval) ∧
    (r ∈ admins → t ∈ admins → 1 < admins.card → t ≠ r →
      remove_admin admins r t = RemoveAdminResult.ok (admins.erase t)) := by
  unfold remove_admin
  refine ⟨fun h1 => by simp [h1], fun h1 h2 => by simp [h1, h2],
    fun h1 h2 h3 => by simp [h1, h2, h3],
    fun h1 h2 h3 h4 => by simp [h1, h2, h3, h4],
    fun h1 h2 h3 h4 => by simp [h1, h2, h4]; omega⟩

/-- Closed witness for the C6 theorem: with moderators `{1, 2}`, requester 1
removing target 2 succeeds. -/
theorem remove_admin_spec_witness :
    remove_admin ({1, 2} : Finset Nat) 1 2 =
      RemoveAdminResult.ok (({1, 2} : Finset Nat).erase 2) :=
  (remove_admin_spec {1, 2} 1 2).2.2.2.2 (by decide) (by decide) (by decide) (by decide)

/-! ### C8: identifier allocation -/

/-- C8 counterexample: create one item, reset everything, create again —
the count of items created so far in the process lifetime is then 1, so the
claim predicts `photo_2`, but the code allocates
`photo_<len(photos_data) + 1>` = `photo_1`. -/
theorem createItem_after_reset_cex :
    createdCount [PhotoEvent.create "a" "b", PhotoEvent.resetAll] + 1 = 2 ∧
    (createItem (runEvents [PhotoEvent.create "a" "b", PhotoEvent.resetAll]) "c" "d").1
      = "photo_1" ∧
    ("photo_1" : String) ≠ "photo_2" := by
  refine ⟨rfl, rfl, by decide⟩

/-- C8 amended: `handle_photo` allocates `photo_<n>` where n is the current
number of items in the registry plus one (not a monotone creation counter);
on a reset-free lifetime starting from an empty registry the two notions
agree, so the original claim holds exactly for removal-free event
sequences. -/
theorem createItem_id_spec :
    (∀ (reg : Registry) (f u : String),
      (createItem reg f u).1 = "photo_" ++ toString (reg.length + 1)) ∧
    (∀ (es : List PhotoEvent) (f u : String),
      (∀ e ∈ es, e ≠ PhotoEvent.resetAll) →
      (createItem (runEvents es) f u).1 = "photo_" ++ toString (createdCount es + 1)) := by
  constructor
  · intro reg f u; rfl
  · intro es f u hall
    have h := runEvents_shape_count es [] regShape_empty
    have hlen : (runEvents es).length = createdCount es := by
      simpa [runEvents] using h.2 hall
    show "photo_" ++ toString ((runEvents es).length + 1) =
      "photo_" ++ toString (createdCount es + 1)
    rw [hlen]

/-- Closed witness for the C8 theorem: a single-creation lifetime allocates
the id predicted from the creation count. -/
theorem createItem_id_spec_witness :
    (createItem (runEvents [PhotoEvent.create "x" "y"]) "f" "u").1 =
      "photo_" ++ toString (createdCount [PhotoEvent.create "x" "y"] + 1) :=
  createItem_id_spec.2 [PhotoEvent.create "x" "y"] "f" "u" (by decide)

/-! ### C9: persistence round trip -/

/-- C9: `save_photos_data` stores per item only the identifier and the media
reference/check value (the type of the saved entries carries nothing else),
and loading the saved state yields every item with its identifier and media
fields preserved but with empty registered set and empty confirmed
sequence: registration state never survives a save/load round trip. -/
theorem save_load_roundtrip (reg : Registry) :
    load_photos_data (save_photos_data reg) =
      reg.map (fun p => (p.1,
        { photo := p.2.photo, photoFileUniqueId := p.2.photoFileUniqueId,
          users := [], confirmedUsers := [] : Item })) := by
  induction reg with
  | nil => rfl
  | cons p rest ih =>
    simp [load_photos_data, save_photos_data] at ih ⊢
    exact ih

/-! ### Further helper lemmas for the per-item operations -/

theorem isConfirmedIn_filter_self (l : List (Nat × Name)) (uid : Nat) :
    isConfirmedIn (l.filter (fun p => ¬ p.1 = uid)) uid = false := by
  rw [isConfirmedIn, List.any_eq_false]
  intro p hp
  have := (List.mem_filter.mp hp).2
  simpa using this

theorem userRegistered_eraseUser_self (l : Users) (uid : Nat) :
    userRegistered (eraseUser l uid) uid = false := by
  cases hreg : userRegistered (eraseUser l uid) uid
  · rfl
  · exfalso
    rcases (userRegistered_iff_lookup _ _).mp hreg with ⟨nm, hnm⟩
    rw [lookupUser_eraseUser] at hnm
    simp at hnm

theorem truthyName_eraseUser_self (l : Users) (uid : Nat) :
    truthyName (eraseUser l uid) uid = false := by
  unfold truthyName
  rw [lookupUser_eraseUser]
  simp

theorem filter_length_lt_of_confirmed (l : List (Nat × Name)) (uid : Nat)
    (h : isConfirmedIn l uid = true) :
    (l.filter (fun p => ¬ p.1 = uid)).length < l.length := by
  induction l with
  | nil => simp [isConfirmedIn] at h
  | cons p rest ih =>
    by_cases hp : p.1 = uid
    · have hle := List.length_filter_le (fun p => decide ¬ p.1 = uid) rest
      simp only [List.filter_cons, List.length_cons]
      rw [if_neg (by simp [hp])]
      omega
    · have h' : isConfirmedIn rest uid = true := by
        simpa [isConfirmedIn, hp] using h
      have := ih h'
      simp only [List.filter_cons, List.length_cons]
      rw [if_pos (by simp [hp])]
      simpa using Nat.succ_lt_succ this

/-! ### C2: explicit Confirm -/

/-- C2 counterexample: on a full item whose confirmed sequence already
contains the registered actor 1, explicit Confirm returns CapacityFull —
the capacity check precedes the already-confirmed check — whereas the claim
demands AlreadyConfirmed for an already-confirmed actor even when the
sequence is full. -/
theorem confirm_full_already_confirmed_cex :
    userRegistered itemFullWith1.users 1 = true ∧
    isConfirmedIn itemFullWith1.confirmedUsers 1 = true ∧
    itemFullWith1.confirmedUsers.length = MAX_CONFIRMED_USERS ∧
    (confirmUser itemFullWith1 1).1 = ConfirmResult.capacityFull ∧
    ConfirmResult.capacityFull ≠ ConfirmResult.alreadyConfirmed := by decide

/-- C2 amended: explicit Confirm fails with NotRegistered when the actor is
not in the registered set; otherwise with CapacityFull whenever the
confirmed sequence already has `MAX_CONFIRMED_USERS` entries — even when the
actor is already confirmed, because the capacity check runs first; otherwise
with AlreadyConfirmed when the actor is already in the sequence; on success
it appends `(actor, registered-name)` at the end and returns the rank
(position) of the new last entry, leaving everything else unchanged. -/
theorem confirm_result_spec (it : Item) (uid : Nat) :
    (userRegistered it.users uid = false →
      confirmUser it uid = (ConfirmResult.notRegistered, it)) ∧
    (userRegistered it.users uid = true →
      MAX_CONFIRMED_USERS ≤ it.confirmedUsers.length →
      confirmUser it uid = (ConfirmResult.capacityFull, it)) ∧
    (userRegistered it.users uid = true →
      it.confirmedUsers.length < MAX_CONFIRMED_USERS →
      isConfirmedIn it.confirmedUsers uid = true →
      confirmUser it uid = (ConfirmResult.alreadyConfirmed, it)) ∧
    (userRegistered it.users uid = true →
      it.confirmedUsers.length < MAX_CONFIRMED_USERS →
      isConfirmedIn it.confirmedUsers uid = false →
      ∃ nm, lookupUser it.users uid = some nm ∧
        confirmUser it uid =
          (ConfirmResult.ok it.confirmedUsers.length,
           { it with confirmedUsers := it.confirmedUsers ++ [(uid, nm)] })) := by
  refine ⟨?_, ?_, ?_, ?_⟩
  · intro h; simp [confirmUser, h]
  · intro h1 h2; simp [confirmUser, h1, h2]
  · intro h1 h2 h3
    simp [confirmUser, h1, h3, Nat.not_le.mpr h2]
  · intro h1 h2 h3
    rcases (userRegistered_iff_lookup _ _).mp h1 with ⟨nm, hnm⟩
    refine ⟨nm, hnm, ?_⟩
    simp [confirmUser, h1, h3, Nat.not_le.mpr h2, hnm]

/-- Closed witness for the C2 theorem: on `itemSmall` the registered,
unconfirmed actor 2 confirms successfully. -/
theorem confirm_result_spec_witness :
    ∃ nm, lookupUser itemSmall.users 2 = some nm ∧
      confirmUser itemSmall 2 =
        (ConfirmResult.ok itemSmall.confirmedUsers.length,
         { itemSmall with confirmedUsers := itemSmall.confirmedUsers ++ [(2, nm)] }) :=
  (confirm_result_spec itemSmall 2).2.2.2 (by decide) (by decide) (by decide)

/-! ### C3: ModeratorDelete -/

/-- C3 counterexample: actor 1 appears only in the confirmed sequence, not
in the registered set; the claim demands ModeratorDelete succeed and remove
the confirmed entry, but the handler gates on the registered name and
answers NotRegistered, leaving the confirmed entry in place. -/
theorem adminDelete_only_confirmed_cex :
    isConfirmedIn itemOnlyConfirmed1.confirmedUsers 1 = true ∧
    userRegistered itemOnlyConfirmed1.users 1 = false ∧
    adminDelete itemOnlyConfirmed1 1 = (DeleteResult.notRegistered, itemOnlyConfirmed1) ∧
    isConfirmedIn (adminDelete itemOnlyConfirmed1 1).2.confirmedUsers 1 = true := by
  decide

/-- C3 amended: ModeratorDelete fails with NotRegistered exactly when the
actor has no non-empty name in the registered set — regardless of the
confirmed sequence; otherwise it removes the actor from both the registered
set and the confirmed sequence (succeeding even when the actor has no
confirmed entry), and a second call on the resulting state yields
NotRegistered with no further change. -/
theorem adminDelete_spec (it : Item) (uid : Nat) :
    (truthyName it.users uid = false →
      adminDelete it uid = (DeleteResult.notRegistered, it)) ∧
    (truthyName it.users uid = true →
      adminDelete it uid = (DeleteResult.ok,
        { it with
          confirmedUsers := it.confirmedUsers.filter (fun p => ¬ p.1 = uid),
          users := eraseUser it.users uid }) ∧
      userRegistered (adminDelete it uid).2.users uid = false ∧
      isConfirmedIn (adminDelete it uid).2.confirmedUsers uid = false ∧
      adminDelete (adminDelete it uid).2 uid =
        (DeleteResult.notRegistered, (adminDelete it uid).2)) := by
  constructor
  · intro h; simp [adminDelete, h]
  · intro h
    have hstep : adminDelete it uid = (DeleteResult.ok,
        { it with
          confirmedUsers := it.confirmedUsers.filter (fun p => ¬ p.1 = uid),
          users := eraseUser it.users uid }) := by
      simp [adminDelete, h]
    refine ⟨hstep, ?_, ?_, ?_⟩
    · rw [hstep]; exact userRegistered_eraseUser_self it.users uid
    · rw [hstep]; exact isConfirmedIn_filter_self it.confirmedUsers uid
    · rw [hstep]
      simp [adminDelete, truthyName_eraseUser_self]

/-- Closed witness for the C3 theorem: deleting the registered, confirmed
actor 1 from `itemSmall` removes it from both structures. -/
theorem adminDelete_spec_witness :
    adminDelete itemSmall 1 = (DeleteResult.ok,
      { itemSmall with
        confirmedUsers := itemSmall.confirmedUsers.filter (fun p => ¬ p.1 = 1),
        users := eraseUser itemSmall.users 1 }) :=
  ((adminDelete_spec itemSmall 1).2 (by decide)).1

/-! ### C5: ModeratorUnconfirm -/

/-- C5 counterexample: actor 1 is in the confirmed sequence but has no
registered name, so the handler answers NotRegistered and removes nothing,
whereas the claim demands removal of the confirmed entry for every actor
currently in the confirmed sequence. -/
theorem adminUnconfirm_only_confirmed_cex :
    isConfirmedIn itemOnlyConfirmed1'.confirmedUsers 1 = true ∧
    adminUnconfirm itemOnlyConfirmed1' 1 =
      (UnconfirmResult.notRegistered, itemOnlyConfirmed1') ∧
    isConfirmedIn (adminUnconfirm itemOnlyConfirmed1' 1).2.confirmedUsers 1 = true := by
  decide

/-- C5 amended: for every actor in the confirmed sequence who also has a
non-empty name in the registered set (as every confirmed actor does in
invariant states), ModeratorUnconfirm removes only that actor's confirmed
entry: the registered set, the media fields, and the relative order of the
other confirmed entries (the filtered sequence) are unchanged, the actor is
not re-confirmed, the operation reports success, and a slot freed this way
is filled only by a later explicit Confirm, which appends at the compacted
end. -/
theorem adminUnconfirm_frame (it : Item) (uid : Nat)
    (hconf : isConfirmedIn it.confirmedUsers uid = true)
    (hname : truthyName it.users uid = true) :
    (adminUnconfirm it uid).2.users = it.users ∧
    (adminUnconfirm it uid).2.photo = it.photo ∧
    (adminUnconfirm it uid).2.photoFileUniqueId = it.photoFileUniqueId ∧
    (adminUnconfirm it uid).2.confirmedUsers =
      it.confirmedUsers.filter (fun p => ¬ p.1 = uid) ∧
    isConfirmedIn (adminUnconfirm it uid).2.confirmedUsers uid = false ∧
    (∃ k, (adminUnconfirm it uid).1 = UnconfirmResult.ok k) ∧
    (∀ v, userRegistered it.users v = true →
      isConfirmedIn (adminUnconfirm it uid).2.confirmedUsers v = false →
      (adminUnconfirm it uid).2.confirmedUsers.length < MAX_CONFIRMED_USERS →
      ∃ nm, lookupUser it.users v = some nm ∧
        (confirmUser (adminUnconfirm it uid).2 v).2.confirmedUsers =
          (adminUnconfirm it uid).2.confirmedUsers ++ [(v, nm)]) := by
  have hlt : (it.confirmedUsers.filter (fun p => ¬ p.1 = uid)).length <
      it.confirmedUsers.length := filter_length_lt_of_confirmed _ _ hconf
  have hstep : adminUnconfirm it uid =
      (UnconfirmResult.ok (it.confirmedUsers.filter (fun p => ¬ p.1 = uid)).length,
       { it with confirmedUsers := it.confirmedUsers.filter (fun p => ¬ p.1 = uid) }) := by
    have hne : ¬ (it.confirmedUsers.filter (fun p => ¬ p.1 = uid)).length =
        it.confirmedUsers.length := Nat.ne_of_lt hlt
    unfold adminUnconfirm
    rw [if_neg (by simp [hname])]
    exact if_neg hne
  rw [hstep]
  refine ⟨rfl, rfl, rfl, rfl, isConfirmedIn_filter_self _ _, ⟨_, rfl⟩, ?_⟩
  intro v hv hnc hcap
  dsimp only at hnc hcap
  simp only [decide_not] at hnc hcap
  rcases (userRegistered_iff_lookup _ _).mp hv with ⟨nm, hnm⟩
  refine ⟨nm, hnm, ?_⟩
  simp [confirmUser, hv, hnc, Nat.not_le.mpr hcap, hnm]

/-- Closed witness for the C5 theorem: unconfirming the registered,
confirmed actor 1 on `itemSmall` retains the registered set and drops the
confirmed entry. -/
theorem adminUnconfirm_frame_witness :
    (adminUnconfirm itemSmall 1).2.users = itemSmall.users ∧
    isConfirmedIn (adminUnconfirm itemSmall 1).2.confirmedUsers 1 = false :=
  ⟨(adminUnconfirm_frame itemSmall 1 (by decide) (by decide)).1,
   (adminUnconfirm_frame itemSmall 1 (by decide) (by decide)).2.2.2.2.1⟩

/-! ### Decomposition of the registration commit -/

/-- Every run of the registration commit either leaves the item unchanged
(one of the validation errors fired) or stores a sanitized name `safe` for
the actor — non-empty and of at most 100 characters — and auto-confirms the
actor exactly when it was not yet confirmed and capacity remained. -/
theorem registerCommit_cases (it : Item) (uid : Nat) (raw : List Char) :
    (registerCommit it uid raw).2 = it ∨
    ∃ safe, safe ≠ [] ∧ safe.length ≤ 100 ∧
      (registerCommit it uid raw).2 =
        { it with users := insertUser it.users uid safe,
                  confirmedUsers :=
                    if isConfirmedIn it.confirmedUsers uid = false ∧
                        it.confirmedUsers.length < MAX_CONFIRMED_USERS
                    then it.confirmedUsers ++ [(uid, safe)]
                    else it.confirmedUsers } := by
  by_cases h1 : (pyStrip raw).isEmpty
  · left; simp [registerCommit, h1]
  · by_cases h2 : 20 < (pyStrip raw).length
    · left; simp [registerCommit, h1, h2]
    · by_cases h3 : (pyStrip raw).length < 2
      · left; simp [registerCommit, h1, h2, h3]
      · by_cases h4 : (pyCollapse ((stripTags (pyStrip raw)).filter isAllowedChar)).isEmpty
        · left; simp [registerCommit, h1, h2, h3, h4]
        · right
          set clean3 := pyCollapse ((stripTags (pyStrip raw)).filter isAllowedChar) with hc3
          set clean4 := if 20 < clean3.length then clean3.take 20 else clean3 with hc4
          have hc3ne : clean3 ≠ [] := by simpa [List.isEmpty_iff] using h4
          have hc4ne : clean4 ≠ [] := by
            rw [hc4]
            split
            · rw [Ne, List.take_eq_nil_iff]
              simp [hc3ne]
            · exact hc3ne
          have hc4len : clean4.length ≤ 20 := by
            rw [hc4]
            split
            · simp
            · omega
          have hc4allowed : ∀ c ∈ clean4, isAllowedChar c = true := by
            intro c hc
            have hc3mem : c ∈ clean3 := by
              rw [hc4] at hc
              rcases (by assumption : c ∈ if 20 < clean3.length then clean3.take 20 else clean3) with h
              by_cases hl : 20 < clean3.length
              · rw [if_pos hl] at hc
                exact (List.take_sublist 20 clean3).subset hc
              · rwa [if_neg hl] at hc
            rcases mem_pyCollapse _ _ hc3mem with hmem | hsp
            · exact (List.mem_filter.mp hmem).2
            · subst hsp; decide
          refine ⟨escapeHtml clean4, escapeHtml_ne_nil _ hc4ne, ?_, ?_⟩
          · calc (escapeHtml clean4).length ≤ 5 * clean4.length :=
                  escapeHtml_length_allowed _ hc4allowed
              _ ≤ 100 := by omega
          · by_cases h5 : isConfirmedIn it.confirmedUsers uid
            · rw [if_neg (by simp [h5])]
              simp [registerCommit, h1, h2, h3, h4, h5, ← hc3, ← hc4]
            · by_cases h6 : it.confirmedUsers.length < MAX_CONFIRMED_USERS
              · rw [if_pos ⟨by simpa using h5, h6⟩]
                simp [registerCommit, h1, h2, h3, h4, h5, h6, ← hc3, ← hc4]
              · rw [if_neg (by simp [h6])]
                simp [registerCommit, h1, h2, h3, h4, h5, h6, ← hc3, ← hc4]

/-! ### Invariant helper lemmas -/

theorem not_confirmed_of_not_registered (it : Item) (uid : Nat) (h : Inv it)
    (hreg : userRegistered it.users uid = false) :
    isConfirmedIn it.confirmedUsers uid = false := by
  cases hc : isConfirmedIn it.confirmedUsers uid
  · rfl
  · exfalso
    rcases List.any_eq_true.mp hc with ⟨p, hp, hpq⟩
    have hq : p.1 = uid := by simpa using hpq
    have := h.2.2 p hp
    rw [hq, lookupUser_eq_none_of_not_registered _ _ hreg] at this
    cases this

theorem notMem_keys_of_not_confirmed (l : List (Nat × Name)) (uid : Nat)
    (h : isConfirmedIn l uid = false) : uid ∉ l.map Prod.fst := by
  intro hmem
  rcases List.mem_map.mp hmem with ⟨p, hp, hq⟩
  rw [isConfirmedIn, List.any_eq_false] at h
  exact h p hp (by simpa using hq)

theorem Inv_filter_confirmed (it : Item) (v : Nat) (h : Inv it) :
    Inv { it with confirmedUsers := it.confirmedUsers.filter (fun p => ¬ p.1 = v) } := by
  obtain ⟨hnd, hlen, hmatch⟩ := h
  refine ⟨?_, ?_, ?_⟩
  · exact hnd.sublist ((List.filter_sublist _).map Prod.fst)
  · exact le_trans (List.length_filter_le _ _) hlen
  · intro p hp
    exact hmatch p (List.mem_of_mem_filter hp)

theorem Inv_delete_both (it : Item) (v : Nat) (h : Inv it) :
    Inv { it with
      confirmedUsers := it.confirmedUsers.filter (fun p => ¬ p.1 = v),
      users := eraseUser it.users v } := by
  obtain ⟨hnd, hlen, hmatch⟩ := h
  refine ⟨?_, ?_, ?_⟩
  · exact hnd.sublist ((List.filter_sublist _).map Prod.fst)
  · exact le_trans (List.length_filter_le _ _) hlen
  · intro p hp
    have hmem := List.mem_of_mem_filter hp
    have hne : ¬ p.1 = v := by
      have := (List.mem_filter.mp hp).2
      simpa using this
    rw [lookupUser_eraseUser, if_neg hne]
    exact hmatch p hmem

theorem Inv_append_confirmed (it : Item) (uid : Nat) (nm : Name) (h : Inv it)
    (hconf : isConfirmedIn it.confirmedUsers uid = false)
    (hlen : it.confirmedUsers.length < MAX_CONFIRMED_USERS)
    (hlook : lookupUser it.users uid = some nm) :
    Inv { it with confirmedUsers := it.confirmedUsers ++ [(uid, nm)] } := by
  obtain ⟨hnd, hlen', hmatch⟩ := h
  refine ⟨?_, ?_, ?_⟩
  · rw [List.map_append]
    apply List.Nodup.append hnd (by simp)
    intro a ha hb
    simp only [List.map_cons, List.map_nil, List.mem_singleton] at hb
    subst hb
    exact notMem_keys_of_not_confirmed _ _ hconf ha
  · simp only [List.length_append, List.length_cons, List.length_nil]
    omega
  · intro p hp
    rcases List.mem_append.mp hp with hold | hnew
    · exact hmatch p hold
    · simp only [List.mem_singleton] at hnew
      subst hnew
      exact hlook

theorem Inv_register_store (it : Item) (uid : Nat) (safe : Name) (h : Inv it)
    (hreg : userRegistered it.users uid = false) :
    Inv { it with users := insertUser it.users uid safe } ∧
    (it.confirmedUsers.length < MAX_CONFIRMED_USERS →
      Inv { it with users := insertUser it.users uid safe,
                    confirmedUsers := it.confirmedUsers ++ [(uid, safe)] }) := by
  obtain ⟨hnd, hlen, hmatch⟩ := h
  have hconf := not_confirmed_of_not_registered it uid ⟨hnd, hlen, hmatch⟩ hreg
  have hmatch' : ∀ p ∈ it.confirmedUsers,
      lookupUser (insertUser it.users uid safe) p.1 = some p.2 := by
    intro p hp
    have hne : ¬ p.1 = uid := by
      intro hq
      have := notMem_keys_of_not_confirmed _ _ hconf
      exact this (hq ▸ List.mem_map_of_mem Prod.fst hp)
    rw [lookupUser_insertUser, if_neg hne]
    exact hmatch p hp
  constructor
  · exact ⟨hnd, hlen, hmatch'⟩
  · intro hcap
    refine ⟨?_, ?_, ?_⟩
    · rw [List.map_append]
      apply List.Nodup.append hnd (by simp)
      intro a ha hb
      simp only [List.map_cons, List.map_nil, List.mem_singleton] at hb
      subst hb
      exact notMem_keys_of_not_confirmed _ _ hconf ha
    · simp only [List.length_append, List.length_cons, List.length_nil]
      omega
    · intro p hp
      rcases List.mem_append.mp hp with hold | hnew
      · exact hmatch' p hold
      · simp only [List.mem_singleton] at hnew
        subst hnew
        rw [lookupUser_insertUser, if_pos rfl]

theorem eraseUser_insertUser_self (l : Users) (uid : Nat) (nm : Name)
    (h : userRegistered l uid = false) :
    eraseUser (insertUser l uid nm) uid = l := by
  rw [insertUser_not_registered l uid nm h]
  unfold eraseUser
  rw [List.filter_append, filter_eq_self_of_not_mem l uid h]
  simp

/-! ### C4: Register, then Unregister -/

/-- C4 counterexample: actor 1 is not registered but already sits in the
confirmed sequence; Register stores the new name without appending a second
confirmed entry (the actor counts as already confirmed), and the following
Unregister removes the pre-existing confirmed entry, so the round trip does
not restore the prior state. -/
theorem register_unregister_roundtrip_cex :
    userRegistered itemOnlyConfirmed1.users 1 = false ∧
    (unregisterOp (registerOp itemOnlyConfirmed1 1 ['B', 'o', 'b']).2 1).2 ≠
      itemOnlyConfirmed1 := by decide

/-- C4 amended: for every item state and every actor neither in the
registered set nor in the confirmed sequence (as in every invariant state),
Register with any raw name followed immediately by Unregister of the same
actor returns the item to exactly its prior state — both structures lose
only the actor, so the relative order and ranks of all other confirmed
entries are exactly as before. -/
theorem register_unregister_roundtrip (it : Item) (uid : Nat) (raw : List Char)
    (hreg : userRegistered it.users uid = false)
    (hconf : isConfirmedIn it.confirmedUsers uid = false) :
    (unregisterOp (registerOp it uid raw).2 uid).2 = it := by
  have hro : (registerOp it uid raw).2 = (registerCommit it uid raw).2 := by
    simp [registerOp, hreg]
  rw [hro]
  rcases registerCommit_cases it uid raw with hsame | ⟨safe, hne, _, heq⟩
  · rw [hsame]
    have ht : truthyName it.users uid = false := by
      unfold truthyName
      rw [lookupUser_eq_none_of_not_registered _ _ hreg]
    simp [unregisterOp, ht]
  · rw [heq]
    have htrue : truthyName (insertUser it.users uid safe) uid = true := by
      unfold truthyName
      rw [lookupUser_insertUser, if_pos rfl]
      simpa [List.isEmpty_iff] using hne
    unfold unregisterOp
    rw [if_neg (by simp [htrue])]
    have hu : eraseUser (insertUser it.users uid safe) uid = it.users :=
      eraseUser_insertUser_self _ _ _ hreg
    have hcf : ((if isConfirmedIn it.confirmedUsers uid = false ∧
          it.confirmedUsers.length < MAX_CONFIRMED_USERS
        then it.confirmedUsers ++ [(uid, safe)]
        else it.confirmedUsers).filter (fun p => ¬ p.1 = uid)) =
        it.confirmedUsers := by
      split
      · rw [List.filter_append, filter_eq_self_of_not_mem _ _ hconf]
        simp
      · exact filter_eq_self_of_not_mem _ _ hconf
    simp only [hu, hcf]

/-- Closed witness for the C4 theorem: registering and immediately
unregistering actor 3 on `itemEmpty` restores `itemEmpty`. -/
theorem register_unregister_roundtrip_witness :
    (unregisterOp (registerOp itemEmpty 3 ['A', 'b']).2 3).2 = itemEmpty :=
  register_unregister_roundtrip itemEmpty 3 ['A', 'b'] (by decide) (by decide)

/-! ### C10: name validation -/

/-- C10 counterexample: a raw name of five apostrophes passes every
validation step (length 5, all characters kept by the sanitizer), but the
HTML-escaping step expands each apostrophe to the five characters `&#39;`,
so the stored name has 25 > 20 characters. -/
theorem registerCommit_stored_length_cex :
    (registerCommit itemEmpty 1 (List.replicate 5 apos)).1 =
      RegisterOutcome.autoConfirmed 0 ∧
    (lookupUser (registerCommit itemEmpty 1 (List.replicate 5 apos)).2.users 1).map
        List.length = some 25 ∧
    ¬ (25 : Nat) ≤ 20 := by decide

/-- C10 amended: in the registration commit step, a trimmed-empty,
too-long (> 20), too-short (< 2) or sanitized-to-empty submission reports
the corresponding error and leaves the item entirely unchanged (atomicity on
validation failure); and any name newly stored by the commit is non-empty
and at most 100 characters long — the 20-character bound holds before HTML
escaping, which expands each surviving escapable character (the apostrophe)
to five characters. -/
theorem registerCommit_validation_spec (it : Item) (uid : Nat) (raw : List Char) :
    ((pyStrip raw).isEmpty = true →
      registerCommit it uid raw = (RegisterOutcome.emptyName, it)) ∧
    ((pyStrip raw).isEmpty = false → 20 < (pyStrip raw).length →
      registerCommit it uid raw = (RegisterOutcome.tooLong, it)) ∧
    ((pyStrip raw).isEmpty = false → (pyStrip raw).length ≤ 20 →
      (pyStrip raw).length < 2 →
      registerCommit it uid raw = (RegisterOutcome.tooShort, it)) ∧
    ((pyStrip raw).isEmpty = false → (pyStrip raw).length ≤ 20 →
      2 ≤ (pyStrip raw).length →
      (pyCollapse ((stripTags (pyStrip raw)).filter isAllowedChar)).isEmpty = true →
      registerCommit it uid raw = (RegisterOutcome.invalidChars, it)) ∧
    (∀ nm, lookupUser (registerCommit it uid raw).2.users uid = some nm →
      lookupUser it.users uid = some nm ∨ (nm ≠ [] ∧ nm.length ≤ 100)) := by
  refine ⟨?_, ?_, ?_, ?_, ?_⟩
  · intro h1; simp [registerCommit, h1]
  · intro h1 h2; simp [registerCommit, h1, h2]
  · intro h1 h2 h3; simp [registerCommit, h1, Nat.not_lt.mpr h2, h3]
  · intro h1 h2 h3 h4
    simp [registerCommit, h1, Nat.not_lt.mpr h2, Nat.not_lt.mpr h3, h4]
  · intro nm hnm
    rcases registerCommit_cases it uid raw with hsame | ⟨safe, hne, h100, heq⟩
    · rw [hsame] at hnm
      exact Or.inl hnm
    · rw [heq] at hnm
      simp only at hnm
      rw [lookupUser_insertUser, if_pos rfl] at hnm
      cases hnm
      exact Or.inr ⟨hne, h100⟩

/-- Closed witness for the C10 theorem: the empty submission reports the
empty-name error and leaves `itemSmall` unchanged. -/
theorem registerCommit_validation_witness :
    registerCommit itemSmall 9 [] = (RegisterOutcome.emptyName, itemSmall) :=
  (registerCommit_validation_spec itemSmall 9 []).1 (by decide)

/-! ### C1: the engine preserves the item invariant -/

/-- C1: every engine operation — Register with auto-confirm (guarded by the
already-registered check of the register button), explicit Confirm,
Unregister, ModeratorUnconfirm, ModeratorDelete and the per-item
ClearRegistrations — preserves the item invariant: the confirmed sequence
has no duplicate actor, its length never exceeds `MAX_CONFIRMED_USERS`, and
every confirmed actor is registered with exactly the name captured at
confirmation time. -/
theorem engine_preserves_invariant (it : Item) (h : Inv it) :
    (∀ uid raw, Inv (registerOp it uid raw).2) ∧
    (∀ uid, Inv (confirmUser it uid).2) ∧
    (∀ uid, Inv (unregisterOp it uid).2) ∧
    (∀ uid, Inv (adminUnconfirm it uid).2) ∧
    (∀ uid, Inv (adminDelete it uid).2) ∧
    Inv (clearItem it) := by
  refine ⟨?_, ?_, ?_, ?_, ?_, ?_⟩
  · intro uid raw
    by_cases hg : userRegistered it.users uid
    · simp [registerOp, hg]; exact h
    · have hg' : userRegistered it.users uid = false := by simpa using hg
      have hro : (registerOp it uid raw).2 = (registerCommit it uid raw).2 := by
        simp [registerOp, hg']
      rw [hro]
      rcases registerCommit_cases it uid raw with hsame | ⟨safe, _, _, heq⟩
      · rw [hsame]; exact h
      · rw [heq]
        split
        · next hcond =>
          exact (Inv_register_store it uid safe h hg').2 hcond.2
        · exact (Inv_register_store it uid safe h hg').1
  · intro uid
    by_cases h1 : userRegistered it.users uid
    · by_cases h2 : MAX_CONFIRMED_USERS ≤ it.confirmedUsers.length
      · simp [confirmUser, h1, h2]; exact h
      · by_cases h3 : isConfirmedIn it.confirmedUsers uid
        · simp [confirmUser, h1, h2, h3]; exact h
        · rcases (userRegistered_iff_lookup _ _).mp (by simpa using h1) with ⟨nm, hnm⟩
          have h3' : isConfirmedIn it.confirmedUsers uid = false := by simpa using h3
          simp only [confirmUser, h1, h2, h3, if_false, not_true, not_false_iff,
            if_true, if_neg, hnm]
          simp [hnm]
          exact Inv_append_confirmed it uid nm h h3' (by omega) hnm
    · simp [confirmUser, h1]; exact h
  · intro uid
    by_cases h1 : truthyName it.users uid
    · have h1' : truthyName it.users uid = true := by simpa using h1
      unfold unregisterOp
      rw [if_neg (by simp [h1'])]
      exact Inv_delete_both it uid h
    · simp [unregisterOp, h1]; exact h
  · intro uid
    by_cases h1 : truthyName it.users uid
    · have h1' : truthyName it.users uid = true := by simpa using h1
      unfold adminUnconfirm
      rw [if_neg (by simp [h1'])]
      dsimp only
      split
      · exact Inv_filter_confirmed it uid h
      · exact Inv_filter_confirmed it uid h
    · simp [adminUnconfirm, h1]; exact h
  · intro uid
    by_cases h1 : truthyName it.users uid
    · have h1' : truthyName it.users uid = true := by simpa using h1
      unfold adminDelete
      rw [if_neg (by simp [h1'])]
      exact Inv_delete_both it uid h
    · simp [adminDelete, h1]; exact h
  · unfold clearItem
    split
    · exact h
    · exact ⟨by simp, by simp [MAX_CONFIRMED_USERS], by simp⟩

/-- Closed witness for the C1 theorem: `itemSmall` satisfies the invariant
and keeps it across a clear and an explicit confirmation. -/
theorem engine_preserves_invariant_witness :
    Inv itemSmall ∧ Inv (clearItem itemSmall) ∧ Inv (confirmUser itemSmall 2).2 :=
  ⟨by decide, (engine_preserves_invariant itemSmall (by decide)).2.2.2.2.2,
   (engine_preserves_invariant itemSmall (by decide)).2.1 2⟩

end VDSAukcion
